import Mathlib

/-!
Verification development for the `db_viewer` repository
(single source file `src/db_viewer_0.3.py`, a PyQt6 SQLite viewer).

The embedding models:
  * the storage state as a list of named tables, each an ordered column
    list `(name, declared type)` plus ordered rows of string cells;
  * the SQLite statements the application issues (CREATE TABLE,
    DROP TABLE, ALTER TABLE ... RENAME / ADD COLUMN,
    INSERT INTO ... SELECT ... FROM, PRAGMA table_info) as functions
    `Database → Bool × Database`, the `Bool` being the engine's
    success flag, exactly what `QSqlQuery.exec` reports to the caller;
  * the application's methods (`delete_column`, `add_column`,
    `execute_query`, `export_to_csv`, `load_query_from_history`,
    `on_data_changed`) and the undo-command classes
    (`DeleteColumnCommand`, the inline `UpdateCommand`) as functions on
    that state, translated line by line from the Python source;
  * the `QUndoStack` bookkeeping (push / undo / redo with a cursor)
    as an explicit stack of commands, following the documented
    linear-undo semantics the spec's Command Log section describes.
-/

/-- Default cell value: a column added by `ALTER TABLE ... ADD COLUMN c TEXT`
holds the empty/default value in every existing row, and the viewer
displays missing data as empty. -/
def defaultValue : String := ""

/-- A table: ordered `(column name, declared type)` pairs and ordered rows,
each row an ordered list of cell values aligned with the column order. -/
structure Table where
  cols : List (String × String)
  rows : List (List String)
deriving Repr, DecidableEq

/-- The database: an ordered association list of named tables. -/
abbrev Database := List (String × Table)

/-- Look a table up by name (first match). -/
def getTable : Database → String → Option Table
  | [], _ => none
  | (n, t) :: rest, m => if n = m then some t else getTable rest m

/-- Replace the contents of every table named `n`. -/
def setTable (db : Database) (n : String) (t : Table) : Database :=
  db.map (fun p => if p.1 = n then (n, t) else p)

/-- Remove every table named `n`. -/
def eraseTable (db : Database) (n : String) : Database :=
  db.filter (fun p => decide (p.1 ≠ n))

/-- Rename every table named `old` to `new`. -/
def renameAll (db : Database) (old new : String) : Database :=
  db.map (fun p => if p.1 = old then (new, p.2) else p)

/-- Value of the first column named `c` in a keyed row. -/
def lookupVal : List (String × String) → String → String
  | [], _ => defaultValue
  | (k, v) :: rest, c => if k = c then v else lookupVal rest c

/-- `SELECT names FROM t` applied to one row `r` of a table with columns
`cols`: each selected column name is resolved against the row by position. -/
def projectRow (cols : List (String × String)) (names : List String)
    (r : List String) : List String :=
  names.map (fun c => lookupVal ((cols.map Prod.fst).zip r) c)

/-- The data stored in column `c` of table `t`, one value per row, in row
order. -/
def columnValues (t : Table) (c : String) : List String :=
  t.rows.map (fun r => lookupVal ((t.cols.map Prod.fst).zip r) c)

/-- `PRAGMA table_info(tn)`: the ordered `(name, type)` list of the table's
columns; a missing table yields no rows. -/
def tableInfo (db : Database) (tn : String) : List (String × String) :=
  match getTable db tn with
  | some t => t.cols
  | none => []

/-- Engine: `CREATE TABLE n (cols...)`. Fails (returns `false`, state
unchanged) if a table named `n` already exists. -/
def createTable (db : Database) (n : String) (cols : List (String × String)) :
    Bool × Database :=
  if (getTable db n).isSome then (false, db)
  else (true, db ++ [(n, ⟨cols, []⟩)])

/-- Engine: `DROP TABLE n`. Fails if no table named `n` exists. -/
def dropTable (db : Database) (n : String) : Bool × Database :=
  if (getTable db n).isSome then (true, eraseTable db n) else (false, db)

/-- Engine: `ALTER TABLE old RENAME TO new`. Fails if `old` is absent or
`new` already exists. -/
def renameTable (db : Database) (old new : String) : Bool × Database :=
  if (getTable db old).isSome ∧ (getTable db new).isNone then
    (true, renameAll db old new)
  else (false, db)

/-- Engine: `ALTER TABLE tn ADD COLUMN c TEXT`. Appends a text column whose
value in every existing row is the default; fails if the table is absent or
the column name collides. -/
def addColumn (db : Database) (tn c : String) : Bool × Database :=
  match getTable db tn with
  | none => (false, db)
  | some t =>
    if c ∈ t.cols.map Prod.fst then (false, db)
    else (true, setTable db tn
      ⟨t.cols ++ [(c, "TEXT")], t.rows.map (fun r => r ++ [defaultValue])⟩)

/-- Engine: `INSERT INTO dest (names) SELECT names FROM src`, as issued by
the drop-column rebuild: the destination's column list is exactly `names`,
and each selected name must exist in the source; every row of `src` is
projected onto `names` and appended to `dest`, preserving row order. -/
def insertSelect (db : Database) (dest src : String) (names : List String) :
    Bool × Database :=
  match getTable db dest, getTable db src with
  | some td, some ts =>
    if td.cols.map Prod.fst = names ∧ (∀ x ∈ names, x ∈ ts.cols.map Prod.fst) then
      (true, setTable db dest
        ⟨td.cols, td.rows ++ ts.rows.map (projectRow ts.cols names)⟩)
    else (false, db)
  | _, _ => (false, db)

/-- The reduced column list the drop-column code builds from
`PRAGMA table_info`: every `(name, type)` pair whose name differs from the
dropped column (`if col_name != column_name: columns_info.append(...)`,
source lines 361-364). There is no existence check for `column_name`. -/
def reducedCols (cols : List (String × String)) (c : String) :
    List (String × String) :=
  cols.filter (fun p => decide (p.1 ≠ c))

/-- The five-step drop-column recipe, translated from
`DatabaseViewer.delete_column` (source lines 356-377) and verbatim-identical
`DeleteColumnCommand.redo` (486-503): introspect the schema, build the
reduced column list, `CREATE TABLE {tn}_temp (...)`, copy rows with
`INSERT INTO temp (cols) SELECT cols FROM tn`, `DROP TABLE tn`, rename the
temp table back. Each statement's success flag is returned but — exactly as
in the source, which never inspects `query.exec`'s return value here — not
acted upon: later statements run regardless of earlier failures. -/
def dropColumnRebuild (db : Database) (table_name column_name : String) :
    Database × List Bool :=
  let columns_info := reducedCols (tableInfo db table_name) column_name
  let temp_table := table_name ++ "_temp"
  let columns_list := columns_info.map Prod.fst
  let s1 := createTable db temp_table columns_info
  let s2 := insertSelect s1.2 temp_table table_name columns_list
  let s3 := dropTable s2.2 table_name
  let s4 := renameTable s3.2 temp_table table_name
  (s4.2, [s1.1, s2.1, s3.1, s4.1])

/-- Outcome of a toolbar action: resulting database, the success flags of
the statements executed, whether an error dialog was shown, and the status
bar message set. -/
structure UiResult where
  db : Database
  execOk : List Bool
  errorDialog : Option String
  statusMsg : String
deriving Repr

namespace DatabaseViewer

/-- `DatabaseViewer.delete_column` (source lines 340-384), the path after
the user confirmed the deletion. The `try` body runs the five statements
ignoring their success flags, commits, and reports success; the `except`
branch can only catch Python-level exceptions, which `QSqlQuery.exec` does
not raise on SQL failure (it returns `False`, checked nowhere here), so no
error dialog is produced on this path and the status bar always reports the
column as deleted. -/
def delete_column (db : Database) (table_name column_name : String) :
    UiResult :=
  let r := dropColumnRebuild db table_name column_name
  { db := r.1
    execOk := r.2
    errorDialog := none
    statusMsg := "Column " ++ column_name ++ " deleted" }

/-- `DatabaseViewer.add_column` (source lines 319-338), the path after the
user entered a column name: executes `ALTER TABLE ... ADD COLUMN ... TEXT`
and — unlike `delete_column` — checks the statement's success flag,
showing an error dialog on failure. -/
def add_column (db : Database) (table_name column_name : String) : UiResult :=
  let r := addColumn db table_name column_name
  if r.1 then
    { db := r.2, execOk := [true], errorDialog := none
      statusMsg := "Column " ++ column_name ++ " added" }
  else
    { db := db, execOk := [false]
      errorDialog := some "Error adding column", statusMsg := "" }

/-- `DatabaseViewer.export_to_csv` (source lines 386-417), the written
records: one header row holding the model's column headers in display
order, then, for each model row, one record whose cells are read per column
index `0 ≤ col < columnCount` and stringified. -/
def export_to_csv (t : Table) : List (List String) :=
  (t.cols.map Prod.fst) ::
    t.rows.map (fun r => (List.range t.cols.length).map (fun i => r.getD i defaultValue))

end DatabaseViewer

/-!
Query runner and history. Query texts are modelled as `List Char` so that
the Python slicing and stripping primitives (`[:50]`, `.strip()`,
`.split(": ", 1)`, `.rstrip("...")`) are exact character-level functions.
-/

/-- Python `s.strip()`: whitespace removed from both ends. -/
def pyStrip (s : List Char) : List Char :=
  (((s.dropWhile Char.isWhitespace).reverse).dropWhile Char.isWhitespace).reverse

/-- Python `s.rstrip("...")`: every trailing run of the character `.` is
removed (`rstrip`'s argument is a set of characters). -/
def rstripDots (s : List Char) : List Char :=
  ((s.reverse).dropWhile (fun ch => ch == '.')).reverse

/-- The history entry built on a successful execution (source line 226):
`f"{timestamp}: {query_text[:50]}..."` — the timestamp, a colon-space
separator, the first 50 characters of the query, then three dots. -/
def historyLine (now q : List Char) : List Char :=
  now ++ ':' :: ' ' :: (q.take 50 ++ ['.', '.', '.'])

/-- Whether a character list contains the two-character separator `": "`
(colon followed by space) anywhere. The `strftime` timestamp format
`%Y-%m-%d %H:%M:%S` never produces it. -/
def hasColonSpace : List Char → Bool
  | [] => false
  | c :: rest => (decide (c = ':') && decide (rest.head? = some ' ')) || hasColonSpace rest

/-- Python `s.split(": ", 1)[1]`: everything after the first occurrence of
the separator `": "` (the viewer only applies this to history entries,
which always contain the separator). -/
def afterColonSpace : List Char → List Char
  | [] => []
  | c :: rest =>
    if c = ':' ∧ rest.head? = some ' ' then rest.tail
    else afterColonSpace rest

/-- Outcome of pressing Execute: the history list after the attempt,
whether an error dialog was shown, and the status message (`none` when the
handler returned without touching the status bar). -/
structure QueryUiResult where
  history : List (List Char)
  errorShown : Bool
  statusMsg : Option String
deriving Repr

namespace DatabaseViewer

/-- `DatabaseViewer.execute_query` (source lines 213-247), with a database
connected: the input text is stripped; an empty text returns immediately;
otherwise the statement is handed to the engine (`engineOk` is what
`query.exec(query_text)` returns). Only the success branch appends the
timestamped, truncated entry to the history list (line 226 sits inside
`if query.exec(query_text):`); the failure branch shows an error dialog and
leaves the history untouched. -/
def execute_query (history : List (List Char)) (now raw : List Char)
    (engineOk : Bool) : QueryUiResult :=
  let query_text := pyStrip raw
  if query_text = [] then ⟨history, false, none⟩
  else if engineOk then
    ⟨history ++ [historyLine now query_text], false, some "Query executed successfully"⟩
  else ⟨history, true, some "Query execution failed"⟩

/-- `DatabaseViewer.load_query_from_history` (source lines 419-421): the
double-clicked item's text is split after the first `": "`, three dots are
appended, and the result's trailing dots are stripped before it is placed
in the query input box. -/
def load_query_from_history (item : List Char) : List Char :=
  rstripDots (afterColonSpace item ++ ['.', '.', '.'])

end DatabaseViewer

/-!
The displayed table and the undo stack. The grid stands for the
`QSqlTableModel` contents (write-through on field change); commands carry
the data their `redo`/`undo` closures capture in the source.
-/

/-- The displayed grid of cells. -/
abbrev Grid := List (List String)

/-- Read cell `(r, c)`; out-of-range reads yield the default value. -/
def getCell (g : Grid) (r c : Nat) : String :=
  (g.getD r []).getD c defaultValue

/-- Write cell `(r, c)`; out-of-range writes leave the grid unchanged. -/
def setCellGrid (g : Grid) (r c : Nat) (v : String) : Grid :=
  g.set r ((g.getD r []).set c v)

/-- A reversible command as pushed onto the undo stack. `update` is the
inline `UpdateCommand` of `on_data_changed` (source lines 193-207), which
captures the row, column, old value and new value. -/
inductive Cmd where
  | update (row col : Nat) (oldVal newVal : String)
deriving Repr, DecidableEq

/-- The command's forward action: `UpdateCommand.redo` writes the new value
back into the cell (source lines 203-204). -/
def Cmd.redoAct : Cmd → Grid → Grid
  | .update r c _ nv, g => setCellGrid g r c nv

/-- The command's reverse action: `UpdateCommand.undo` writes the captured
old value back into the cell (source lines 206-207). -/
def Cmd.undoAct : Cmd → Grid → Grid
  | .update r c ov _, g => setCellGrid g r c ov

/-- The `QUndoStack` bookkeeping: the command list and the cursor index
(number of commands currently applied). -/
structure UndoStack where
  cmds : List Cmd
  index : Nat
deriving Repr, DecidableEq

/-- Application state touched by editing: the displayed grid and the undo
stack (`self.undo_stack`, source line 46, cleared on connect). -/
structure AppState where
  grid : Grid
  stack : UndoStack
deriving Repr, DecidableEq

/-- `QUndoStack.push`: every command above the cursor is discarded (the
redo history is lost), the new command is appended, the cursor moves to
the end of the list, and the command's forward action is executed. -/
def stackPush (st : AppState) (c : Cmd) : AppState :=
  let kept := st.stack.cmds.take st.stack.index
  { grid := c.redoAct st.grid
    stack := { cmds := kept ++ [c], index := (kept ++ [c]).length } }

/-- `QUndoStack.undo`: a no-op when the cursor is at the start; otherwise
the command immediately left of the cursor is reversed and the cursor moves
left by one. (The final fall-through arm is unreachable while the stack's
`index ≤ cmds.length` invariant holds.) -/
def stackUndo (st : AppState) : AppState :=
  if st.stack.index = 0 then st
  else if h : st.stack.index - 1 < st.stack.cmds.length then
    let c := st.stack.cmds.get ⟨st.stack.index - 1, h⟩
    { grid := c.undoAct st.grid
      stack := { st.stack with index := st.stack.index - 1 } }
  else st

/-- `QUndoStack.redo`: a no-op when the cursor is at the end; otherwise the
command at the cursor is re-applied and the cursor moves right by one. -/
def stackRedo (st : AppState) : AppState :=
  if h : st.stack.index < st.stack.cmds.length then
    let c := st.stack.cmds.get ⟨st.stack.index, h⟩
    { grid := c.redoAct st.grid
      stack := { st.stack with index := st.stack.index + 1 } }
  else st

/-!
The cell-edit undo path, modelled with the values the Qt model actually
serves. A cell value as the model reports it is an `Option String`:
`none` is an invalid variant (what PyQt6 surfaces as `None`; written back
it becomes SQL NULL), `some s` a stored string.
-/

/-- The displayed grid with SQL-accurate cell values: `none` is NULL. -/
abbrev QGrid := List (List (Option String))

/-- `model.data(index)` (display/edit role): the stored cell value. -/
def getQCell (g : QGrid) (row col : Nat) : Option String :=
  (g.getD row []).getD col none

/-- `model.setData(index, v)`: write a value through to the cell. -/
def setQCell (g : QGrid) (row col : Nat) (v : Option String) : QGrid :=
  g.set row ((g.getD row []).set col v)

/-- `model.data(index, Qt.ItemDataRole.UserRole)` on a `QSqlTableModel`
(source line 191): the model serves data only for the display and edit
roles, so a user-role read returns an invalid variant — `None` in PyQt6 —
whatever the cell holds. The pre-edit value is in any case unobtainable at
this point: the handler runs after the `OnFieldChange` write-through, and
every read already reflects the new value (spec: every successful write is
immediately visible to subsequent reads). -/
def dataUserRole (_g : QGrid) (_row _col : Nat) : Option String := none

/-- The inline `UpdateCommand` of `on_data_changed` (source lines
193-207): it carries the row, the column and the two values the handler
read. -/
structure UpdateCommand where
  row : Nat
  col : Nat
  old_value : Option String
  new_value : Option String
deriving Repr, DecidableEq

/-- `UpdateCommand.redo` (source lines 203-204): write `new_value` back
into the cell. -/
def UpdateCommand.redo (u : UpdateCommand) (g : QGrid) : QGrid :=
  setQCell g u.row u.col u.new_value

/-- `UpdateCommand.undo` (source lines 206-207): write the captured
`old_value` into the cell. -/
def UpdateCommand.undo (u : UpdateCommand) (g : QGrid) : QGrid :=
  setQCell g u.row u.col u.old_value

namespace DatabaseViewer

/-- `DatabaseViewer.on_data_changed` (source lines 186-211), called after
the model applied an edit: `new_value` is read from the model
(`model.data(top_left)`, which returns the just-written value) and
`old_value` from the user role (`model.data(top_left, UserRole)`, an
invalid variant); when the two differ, the `UpdateCommand` built from
exactly those two reads is pushed onto the undo stack — returned here,
`none` when no push happens. -/
def on_data_changed (g : QGrid) (row col : Nat) : Option UpdateCommand :=
  let new_value := getQCell g row col
  let old_value := dataUserRole g row col
  if old_value ≠ new_value then
    some { row := row, col := col, old_value := old_value,
           new_value := new_value }
  else none

end DatabaseViewer

namespace DeleteColumnCommand

/-- `DeleteColumnCommand.redo` (source lines 486-503): the same five-step
rebuild as `delete_column`, re-run against the current database. -/
def redo (db : Database) (table_name column_name : String) : Database :=
  (dropColumnRebuild db table_name column_name).1

/-- `DeleteColumnCommand.undo` (source lines 505-508): the lossy inverse —
`ALTER TABLE ... ADD COLUMN column_name TEXT`, which re-adds the column
name with default values only. -/
def undo (db : Database) (table_name column_name : String) : Database :=
  (addColumn db table_name column_name).2

end DeleteColumnCommand

/-! Helper lemmas about the database representation. -/

theorem getTable_eq_none_iff {db : Database} {m : String} :
    getTable db m = none ↔ ∀ p ∈ db, p.1 ≠ m := by
  induction db with
  | nil => simp [getTable]
  | cons q rest ih =>
    obtain ⟨n, t⟩ := q
    by_cases h : n = m
    · subst h
      simp [getTable]
    · simp [getTable, h, ih]

theorem getTable_append_of_none {db1 : Database} (db2 : Database) {m : String}
    (h : getTable db1 m = none) : getTable (db1 ++ db2) m = getTable db2 m := by
  induction db1 with
  | nil => simp
  | cons q rest ih =>
    obtain ⟨n, t⟩ := q
    by_cases hn : n = m
    · subst hn
      simp [getTable] at h
    · simp only [List.cons_append, getTable, hn, if_false] at h ⊢
      exact ih h

theorem getTable_append_of_some {db1 : Database} (db2 : Database) {m : String}
    {t : Table} (h : getTable db1 m = some t) :
    getTable (db1 ++ db2) m = some t := by
  induction db1 with
  | nil => simp [getTable] at h
  | cons q rest ih =>
    obtain ⟨n, u⟩ := q
    by_cases hn : n = m
    · subst hn
      simp only [getTable, if_pos rfl] at h ⊢
      exact h
    · simp only [getTable, hn, if_false] at h ⊢
      exact ih h

theorem getTable_eraseTable_self (db : Database) (n : String) :
    getTable (eraseTable db n) n = none := by
  rw [getTable_eq_none_iff]
  intro p hp
  have := List.mem_filter.1 hp
  simpa using this.2

theorem mem_of_mem_eraseTable {db : Database} {n : String} {p : String × Table}
    (hp : p ∈ eraseTable db n) : p ∈ db :=
  (List.mem_filter.1 hp).1

theorem getTable_eraseTable_of_none {db : Database} {m : String} (n : String)
    (h : getTable db m = none) : getTable (eraseTable db n) m = none := by
  rw [getTable_eq_none_iff] at h ⊢
  exact fun p hp => h p (mem_of_mem_eraseTable hp)

theorem setTable_eq_of_none {db : Database} {n : String} (t' : Table)
    (h : getTable db n = none) : setTable db n t' = db := by
  rw [getTable_eq_none_iff] at h
  unfold setTable
  rw [List.map_congr_left (g := id) (fun p hp => by simp [h p hp]), List.map_id]

theorem renameAll_eq_of_none {db : Database} {old : String} (new : String)
    (h : getTable db old = none) : renameAll db old new = db := by
  rw [getTable_eq_none_iff] at h
  unfold renameAll
  rw [List.map_congr_left (g := id) (fun p hp => by simp [h p hp]), List.map_id]

theorem setTable_append_fresh {db : Database} {n : String} (t0 t1 : Table)
    (h : getTable db n = none) :
    setTable (db ++ [(n, t0)]) n t1 = db ++ [(n, t1)] := by
  unfold setTable
  rw [List.map_append]
  have h1 : setTable db n t1 = db := setTable_eq_of_none t1 h
  unfold setTable at h1
  rw [h1]
  simp

/-! Helper lemmas about keyed row lookup and projection. -/

theorem lookupVal_pairs {l : List String} {f : String → String} {d : String}
    (hd : d ∈ l) : lookupVal (l.map (fun c => (c, f c))) d = f d := by
  induction l with
  | nil => cases hd
  | cons a l' ih =>
    by_cases h : a = d
    · subst h
      simp [lookupVal]
    · have hd' : d ∈ l' := by
        cases List.mem_cons.1 hd with
        | inl he => exact absurd he.symm h
        | inr hm => exact hm
      simp [lookupVal, h, ih hd']

theorem lookupVal_append_keys_ne {a : List (String × String)}
    (rest : List (String × String)) {c : String} (h : ∀ p ∈ a, p.1 ≠ c) :
    lookupVal (a ++ rest) c = lookupVal rest c := by
  induction a with
  | nil => rfl
  | cons q a' ih =>
    obtain ⟨k, v⟩ := q
    have hk : k ≠ c := h (k, v) (List.mem_cons_self _ _)
    rw [List.cons_append]
    simp only [lookupVal, hk, if_false]
    exact ih (fun p hp => h p (List.mem_cons_of_mem _ hp))

theorem lookupVal_zip_reconstruct {l : List String} :
    ∀ {r : List String} (rest : List (String × String)), l.Nodup →
      r.length = l.length →
      l.map (fun d => lookupVal (l.zip r ++ rest) d) = r := by
  induction l with
  | nil =>
    intro r _ _ hr
    simp at hr
    simp [hr]
  | cons a l' ih =>
    intro r rest hnd hr
    match r with
    | [] => simp at hr
    | v :: r' =>
      have hnd' := List.nodup_cons.1 hnd
      have hlen : r'.length = l'.length := by simpa using hr
      simp only [List.zip_cons_cons, List.map_cons, List.cons_append]
      rw [show lookupVal ((a, v) :: (l'.zip r' ++ rest)) a = v by simp [lookupVal]]
      rw [List.map_congr_left
        (g := fun d => lookupVal (l'.zip r' ++ rest) d)
        (fun d hd => by
          have hda : a ≠ d := fun he => hnd'.1 (he ▸ hd)
          simp [lookupVal, hda])]
      rw [ih rest hnd'.2 hlen]

theorem zip_self_map (l : List String) (g : String → String) :
    l.zip (l.map g) = l.map (fun a => (a, g a)) := by
  induction l with
  | nil => rfl
  | cons a l' ih => simp [ih]

theorem lookupVal_projectRow {cols : List (String × String)}
    {names : List String} (r : List String) {d : String} (hd : d ∈ names) :
    lookupVal (names.zip (projectRow cols names r)) d =
      lookupVal ((cols.map Prod.fst).zip r) d := by
  unfold projectRow
  rw [zip_self_map, lookupVal_pairs hd]

theorem mem_reducedCols_names {cols : List (String × String)} {c x : String}
    (hx : x ∈ (reducedCols cols c).map Prod.fst) : x ∈ cols.map Prod.fst := by
  obtain ⟨p, hp, he⟩ := List.mem_map.1 hx
  exact List.mem_map.2 ⟨p, (List.mem_filter.1 hp).1, he⟩

theorem not_mem_reducedCols_names (cols : List (String × String)) (c : String) :
    c ∉ (reducedCols cols c).map Prod.fst := by
  intro hc
  obtain ⟨p, hp, he⟩ := List.mem_map.1 hc
  have := (List.mem_filter.1 hp).2
  rw [decide_eq_true_eq] at this
  exact this he

theorem reducedCols_eq_self {cols : List (String × String)} {c : String}
    (h : c ∉ cols.map Prod.fst) : reducedCols cols c = cols := by
  unfold reducedCols
  rw [List.filter_eq_self]
  intro p hp
  rw [decide_eq_true_eq]
  intro he
  exact h (List.mem_map.2 ⟨p, hp, he⟩)

/-- Master characterization of the five-step rebuild: starting from a
database holding `tn` with contents `t` and no table named `tn ++ "_temp"`,
the sequence replaces `tn` by a table with the reduced column list whose
rows are the original rows, in order, each projected onto the retained
column names. -/
theorem dropColumnRebuild_eq (db : Database) (tn c : String) (t : Table)
    (h1 : getTable db tn = some t)
    (h2 : getTable db (tn ++ "_temp") = none) :
    (dropColumnRebuild db tn c).1 =
      eraseTable db tn ++
        [(tn, ⟨reducedCols t.cols c,
               t.rows.map (projectRow t.cols
                 ((reducedCols t.cols c).map Prod.fst))⟩)] := by
  have hne : tn ≠ tn ++ "_temp" := by
    intro he
    rw [he] at h1
    rw [h1] at h2
    exact Option.noConfusion h2
  have e0 : tableInfo db tn = t.cols := by simp [tableInfo, h1]
  unfold dropColumnRebuild
  dsimp only
  rw [e0]
  have e1 : createTable db (tn ++ "_temp") (reducedCols t.cols c) =
      (true, db ++ [(tn ++ "_temp", ⟨reducedCols t.cols c, []⟩)]) := by
    simp [createTable, h2]
  rw [e1]
  have g1 : getTable (db ++ [(tn ++ "_temp", ⟨reducedCols t.cols c, []⟩)])
      (tn ++ "_temp") = some ⟨reducedCols t.cols c, []⟩ := by
    rw [getTable_append_of_none _ h2]
    simp [getTable]
  have g2 : getTable (db ++ [(tn ++ "_temp", ⟨reducedCols t.cols c, []⟩)])
      tn = some t := getTable_append_of_some _ h1
  have e2 : insertSelect
      (db ++ [(tn ++ "_temp", ⟨reducedCols t.cols c, []⟩)])
      (tn ++ "_temp") tn ((reducedCols t.cols c).map Prod.fst) =
      (true, db ++ [(tn ++ "_temp",
        ⟨reducedCols t.cols c,
         t.rows.map (projectRow t.cols
           ((reducedCols t.cols c).map Prod.fst))⟩)]) := by
    unfold insertSelect
    rw [g1, g2]
    dsimp only
    rw [if_pos ⟨rfl, fun x hx => mem_reducedCols_names hx⟩]
    rw [setTable_append_fresh _ _ h2]
    simp
  rw [e2]
  have e3 : dropTable (db ++ [(tn ++ "_temp",
      ⟨reducedCols t.cols c,
       t.rows.map (projectRow t.cols
         ((reducedCols t.cols c).map Prod.fst))⟩)]) tn =
      (true, eraseTable db tn ++ [(tn ++ "_temp",
        ⟨reducedCols t.cols c,
         t.rows.map (projectRow t.cols
           ((reducedCols t.cols c).map Prod.fst))⟩)]) := by
    unfold dropTable
    rw [getTable_append_of_some _ h1]
    simp only [Option.isSome_some, if_pos]
    unfold eraseTable
    rw [List.filter_append]
    congr 1
    simp [Ne.symm hne]
  rw [e3]
  have g3 : getTable (eraseTable db tn) (tn ++ "_temp") = none :=
    getTable_eraseTable_of_none tn h2
  have g4 : getTable (eraseTable db tn ++ [(tn ++ "_temp",
      ⟨reducedCols t.cols c,
       t.rows.map (projectRow t.cols
         ((reducedCols t.cols c).map Prod.fst))⟩)]) (tn ++ "_temp") =
      some ⟨reducedCols t.cols c,
        t.rows.map (projectRow t.cols
          ((reducedCols t.cols c).map Prod.fst))⟩ := by
    rw [getTable_append_of_none _ g3]
    simp [getTable]
  have g5 : getTable (eraseTable db tn ++ [(tn ++ "_temp",
      ⟨reducedCols t.cols c,
       t.rows.map (projectRow t.cols
         ((reducedCols t.cols c).map Prod.fst))⟩)]) tn = none := by
    rw [getTable_append_of_none _ (getTable_eraseTable_self db tn)]
    simp [getTable, Ne.symm hne]
  unfold renameTable
  rw [g4, g5]
  simp only [Option.isSome_some, Option.isNone_none, and_self, if_pos]
  unfold renameAll
  rw [List.map_append]
  have h6 : renameAll (eraseTable db tn) (tn ++ "_temp") tn =
      eraseTable db tn := renameAll_eq_of_none tn g3
  unfold renameAll at h6
  rw [h6]
  simp

/-- The rebuilt table, as read back by name after the five steps. -/
theorem getTable_dropColumnRebuild (db : Database) (tn c : String) (t : Table)
    (h1 : getTable db tn = some t)
    (h2 : getTable db (tn ++ "_temp") = none) :
    getTable (dropColumnRebuild db tn c).1 tn =
      some ⟨reducedCols t.cols c,
            t.rows.map (projectRow t.cols
              ((reducedCols t.cols c).map Prod.fst))⟩ := by
  rw [dropColumnRebuild_eq db tn c t h1 h2]
  rw [getTable_append_of_none _ (getTable_eraseTable_self db tn)]
  simp [getTable]

theorem getTable_setTable_self {db : Database} {n : String} {t : Table}
    (t' : Table) (h : getTable db n = some t) :
    getTable (setTable db n t') n = some t' := by
  induction db with
  | nil => simp [getTable] at h
  | cons q rest ih =>
    obtain ⟨m, u⟩ := q
    by_cases hm : m = n
    · subst hm
      have e : setTable ((m, u) :: rest) m t' = (m, t') :: setTable rest m t' := by
        simp [setTable]
      rw [e]
      simp [getTable]
    · simp only [getTable, hm, if_false] at h
      simp only [setTable, List.map_cons, if_neg hm]
      simp only [getTable, hm, if_false]
      exact ih h

theorem getTable_setTable_ne {db : Database} {n m : String} (t' : Table)
    (h : m ≠ n) : getTable (setTable db n t') m = getTable db m := by
  induction db with
  | nil => rfl
  | cons q rest ih =>
    obtain ⟨k, u⟩ := q
    by_cases hk : k = n
    · subst hk
      simp only [setTable, List.map_cons, if_pos rfl]
      simp only [getTable, if_neg (Ne.symm h), if_neg]
      exact ih
    · simp only [setTable, List.map_cons, if_neg hk]
      simp only [getTable]
      by_cases hkm : k = m
      · simp [hkm]
      · simp only [hkm, if_false]
        exact ih

/-- Projecting a row onto the table's own (duplicate-free) column list
reproduces the row. -/
theorem projectRow_self {cols : List (String × String)} {r : List String}
    (hnd : (cols.map Prod.fst).Nodup) (hlen : r.length = cols.length) :
    projectRow cols (cols.map Prod.fst) r = r := by
  unfold projectRow
  have h := lookupVal_zip_reconstruct (l := cols.map Prod.fst) (r := r) []
    hnd (by simp [hlen])
  simpa using h

/-- Projecting a row extended by one fresh trailing column onto the
original column list reproduces the original row. -/
theorem projectRow_append_fresh {cols : List (String × String)}
    {r : List String} (x v ty : String)
    (hnd : (cols.map Prod.fst).Nodup) (hlen : r.length = cols.length) :
    projectRow (cols ++ [(x, ty)]) (cols.map Prod.fst) (r ++ [v]) = r := by
  unfold projectRow
  rw [List.map_append]
  rw [List.zip_append (by simp [hlen])]
  have h := lookupVal_zip_reconstruct (l := cols.map Prod.fst) (r := r)
    ([(x, v)]) hnd (by simp [hlen])
  simpa using h

/-! Helper lemmas about the grid and the undo stack. -/

/-! Helper lemmas about python-style character list operations. -/

theorem afterColonSpace_boundary {ts : List Char} (rest : List Char)
    (h : hasColonSpace ts = false) :
    afterColonSpace (ts ++ ':' :: ' ' :: rest) = rest := by
  induction ts with
  | nil => simp [afterColonSpace]
  | cons a ts' ih =>
    unfold hasColonSpace at h
    rw [Bool.or_eq_false_iff] at h
    rw [List.cons_append]
    cases ts' with
    | nil =>
      simp only [List.nil_append]
      unfold afterColonSpace
      rw [if_neg (by simp)]
      simp [afterColonSpace]
    | cons b ts'' =>
      unfold afterColonSpace
      have hcond : ¬(a = ':' ∧
          ((b :: ts'') ++ ':' :: ' ' :: rest).head? = some ' ') := by
        intro hc
        have hb : b = ' ' := by simpa using hc.2
        have h1 := h.1
        rw [hc.1, hb] at h1
        simp at h1
      rw [if_neg hcond]
      exact ih h.2

theorem rstripDots_append_dots (a : List Char) :
    rstripDots (a ++ ['.', '.', '.']) = rstripDots a := by
  unfold rstripDots
  rw [List.reverse_append]
  rw [show (['.', '.', '.'] : List Char).reverse = ['.', '.', '.'] from rfl]
  simp [List.dropWhile_cons]

theorem rstripDots_eq_self {q : List Char} (h : q.getLast? ≠ some '.') :
    rstripDots q = q := by
  unfold rstripDots
  cases hq : q.reverse with
  | nil =>
    simp only [List.dropWhile_nil, List.reverse_nil]
    exact (List.reverse_eq_nil_iff.1 hq).symm
  | cons ch rest =>
    have hlast : q.getLast? = some ch := by
      rw [← List.head?_reverse, hq]
      rfl
    have hch : (ch == '.') = false := by
      rw [beq_eq_false_iff_ne]
      intro he
      exact h (he ▸ hlast)
    rw [List.dropWhile_cons, hch]
    rw [if_neg (by simp)]
    rw [← hq, List.reverse_reverse]

theorem length_rstripDots_le (q : List Char) :
    (rstripDots q).length ≤ q.length := by
  unfold rstripDots
  rw [List.length_reverse]
  calc (q.reverse.dropWhile (fun ch => ch == '.')).length
      ≤ q.reverse.length := (List.dropWhile_sublist _).length_le
    _ = q.length := List.length_reverse _

theorem head_dropWhileDots_ne (l : List Char) :
    ∀ ch rest, l.dropWhile (fun ch => ch == '.') = ch :: rest →
      (ch == '.') = false := by
  induction l with
  | nil =>
    intro ch rest h
    cases h
  | cons a l' ih =>
    intro ch rest h
    rw [List.dropWhile_cons] at h
    by_cases ha : (a == '.') = true
    · rw [if_pos ha] at h
      exact ih ch rest h
    · rw [if_neg ha] at h
      cases h
      simpa using ha

theorem rstripDots_getLast_ne (q : List Char) :
    (rstripDots q).getLast? ≠ some '.' := by
  unfold rstripDots
  rw [List.getLast?_reverse]
  cases hd : q.reverse.dropWhile (fun ch => ch == '.') with
  | nil => simp
  | cons ch rest =>
    have h := head_dropWhileDots_ne q.reverse ch rest hd
    rw [beq_eq_false_iff_ne] at h
    simpa using h

/-! Helper lemma about the CSV row read-out. -/

theorem range_getD_eq (r : List String) :
    (List.range r.length).map (fun i => r.getD i defaultValue) = r := by
  induction r with
  | nil => rfl
  | cons v r' ih =>
    rw [show (v :: r').length = r'.length + 1 from rfl, List.range_succ_eq_map]
    simp only [List.map_cons, List.getD_cons_zero, List.map_map]
    congr 1

/-! Concrete fixtures used by the witness and counterexample theorems. -/

/-- A concrete table: `people` with an id column, a name column and an age
column, holding two rows. -/
def peopleTable : Table :=
  ⟨[("id", "INTEGER"), ("name", "TEXT"), ("age", "TEXT")],
   [["1", "Ann", "30"], ["2", "Bob", "41"]]⟩

/-- A concrete database holding only `people`. -/
def dbPeople : Database := [("people", peopleTable)]

/-- A concrete database in which the rebuild's temporary table name
`t_temp` is already taken, so the `CREATE TABLE` step of a drop-column on
`t` fails. -/
def dbTempClash : Database :=
  [("t", ⟨[("id", "INTEGER"), ("a", "TEXT")], [["1", "x"]]⟩),
   ("t_temp", ⟨[("id", "INTEGER")], []⟩)]

/-- A concrete application state: one displayed row `["1", ""]` and an
empty undo stack, as right after `addColumn("people", "name")`. -/
def emptyApp : AppState := ⟨[["1", ""]], ⟨[], 0⟩⟩

/-! Claim theorems. -/

/-- C1: for every table and every column present in it, the five-step
drop-column sequence (introspect, create temp with the reduced column
list, copy rows by INSERT...SELECT, drop the original, rename) leaves the
surviving columns' data unchanged and the rows in their original order:
the resulting table carries exactly the reduced column list, its row list
is the original row list mapped in order through the projection, it has
the same number of rows, and every retained column holds exactly the
values it held before. -/
theorem delete_column_preserves_retained_columns (db : Database)
    (tn c : String) (t : Table)
    (h1 : getTable db tn = some t)
    (h2 : getTable db (tn ++ "_temp") = none)
    (h3 : c ∈ t.cols.map Prod.fst) :
    ∃ t', getTable (DatabaseViewer.delete_column db tn c).db tn = some t' ∧
      t'.cols = reducedCols t.cols c ∧
      t'.rows = t.rows.map
        (projectRow t.cols ((reducedCols t.cols c).map Prod.fst)) ∧
      t'.rows.length = t.rows.length ∧
      ∀ d ∈ (reducedCols t.cols c).map Prod.fst,
        columnValues t' d = columnValues t d := by
  refine ⟨⟨reducedCols t.cols c,
    t.rows.map (projectRow t.cols ((reducedCols t.cols c).map Prod.fst))⟩,
    ?_, rfl, rfl, by simp, ?_⟩
  · exact getTable_dropColumnRebuild db tn c t h1 h2
  · intro d hd
    unfold columnValues
    dsimp only
    rw [List.map_map]
    exact List.map_congr_left (fun r _ => lookupVal_projectRow r hd)

/-- Witness for C1 at the concrete `people` table, dropping `name`. -/
theorem delete_column_preserves_retained_columns_witness :
    ∃ t', getTable
        (DatabaseViewer.delete_column dbPeople "people" "name").db "people" =
        some t' ∧
      t'.cols = reducedCols peopleTable.cols "name" ∧
      t'.rows = peopleTable.rows.map
        (projectRow peopleTable.cols
          ((reducedCols peopleTable.cols "name").map Prod.fst)) ∧
      t'.rows.length = peopleTable.rows.length ∧
      ∀ d ∈ (reducedCols peopleTable.cols "name").map Prod.fst,
        columnValues t' d = columnValues peopleTable d :=
  delete_column_preserves_retained_columns dbPeople "people" "name"
    peopleTable (by decide) (by decide) (by decide)

/-- C3 counterexample: in `dbTempClash` the temporary table already
exists, so the rebuild's `CREATE TABLE` statement fails (first success
flag is `false`), yet no error dialog is produced and the status bar
reports the column as deleted — refuting the claim that whenever one of
the statements fails the error is surfaced to the user. -/
theorem delete_column_failure_not_surfaced_cex :
    (DatabaseViewer.delete_column dbTempClash "t" "a").execOk.getD 0 true
      = false ∧
    (DatabaseViewer.delete_column dbTempClash "t" "a").errorDialog = none ∧
    (DatabaseViewer.delete_column dbTempClash "t" "a").statusMsg =
      "Column a deleted" := by
  exact ⟨by decide, rfl, rfl⟩

/-- C3 (amended): steps 3-5 of the drop-column sequence are attempted
unconditionally (all four statements always execute and report a success
flag), but statement failures are never checked, so no error is surfaced —
the error dialog is always absent and the status bar always reports
success — and no rollback of earlier steps is attempted. -/
theorem delete_column_ignores_statement_failures (db : Database)
    (tn c : String) :
    (DatabaseViewer.delete_column db tn c).execOk.length = 4 ∧
    (DatabaseViewer.delete_column db tn c).errorDialog = none ∧
    (DatabaseViewer.delete_column db tn c).statusMsg =
      "Column " ++ c ++ " deleted" :=
  ⟨rfl, rfl, rfl⟩

/-- C5 counterexample: dropping the absent column `zzz` from the concrete
`people` table completes without any failure — no error of any kind is
raised and the table's schema and data are untouched — refuting the claim
that the operation fails with `SchemaError("column not found")`. -/
theorem delete_column_absent_column_no_failure_cex :
    (DatabaseViewer.delete_column dbPeople "people" "zzz").errorDialog
      = none ∧
    (DatabaseViewer.delete_column dbPeople "people" "zzz").statusMsg =
      "Column zzz deleted" ∧
    getTable (DatabaseViewer.delete_column dbPeople "people" "zzz").db
      "people" = some peopleTable := by
  exact ⟨rfl, rfl, by decide⟩

/-- C5 (amended): dropping a column name that is not among the table's
columns does not fail at all — there is no existence check, so the rebuild
runs with the full column list, no error is reported, and the table's
schema and data are left unchanged. -/
theorem delete_column_absent_column_unchanged (db : Database)
    (tn c : String) (t : Table)
    (h1 : getTable db tn = some t)
    (h2 : getTable db (tn ++ "_temp") = none)
    (hc : c ∉ t.cols.map Prod.fst)
    (hnd : (t.cols.map Prod.fst).Nodup)
    (hlen : ∀ r ∈ t.rows, r.length = t.cols.length) :
    (DatabaseViewer.delete_column db tn c).errorDialog = none ∧
    getTable (DatabaseViewer.delete_column db tn c).db tn = some t := by
  refine ⟨rfl, ?_⟩
  have h := getTable_dropColumnRebuild db tn c t h1 h2
  rw [reducedCols_eq_self hc] at h
  have hrows : t.rows.map (projectRow t.cols (t.cols.map Prod.fst))
      = t.rows := by
    have he : t.rows.map (projectRow t.cols (t.cols.map Prod.fst))
        = t.rows.map id :=
      List.map_congr_left (fun r hr => projectRow_self hnd (hlen r hr))
    rw [he, List.map_id]
  rw [hrows] at h
  exact h

/-- Witness for the amended C5 at the concrete `people` table and the
absent column `zzz`. -/
theorem delete_column_absent_column_unchanged_witness :
    (DatabaseViewer.delete_column dbPeople "people" "zzz").errorDialog
      = none ∧
    getTable (DatabaseViewer.delete_column dbPeople "people" "zzz").db
      "people" = some peopleTable :=
  delete_column_absent_column_unchanged dbPeople "people" "zzz" peopleTable
    (by decide) (by decide) (by decide) (by decide) (by decide)

theorem zip_keys_ne {names r : List String} {c : String} (hc : c ∉ names) :
    ∀ p ∈ names.zip r, p.1 ≠ c := by
  intro p hp
  obtain ⟨a, b⟩ := p
  intro he
  have ha : a = c := he
  subst ha
  exact hc (List.of_mem_zip hp).1

theorem reducedCols_append_fresh {cols : List (String × String)}
    {x : String} (ty : String) (hx : x ∉ cols.map Prod.fst) :
    reducedCols (cols ++ [(x, ty)]) x = cols := by
  have h1 : reducedCols (cols ++ [(x, ty)]) x =
      reducedCols cols x ++ reducedCols [(x, ty)] x := by
    unfold reducedCols
    exact List.filter_append _ _
  have h2 : reducedCols [(x, ty)] x = [] := by
    unfold reducedCols
    simp
  rw [h1, reducedCols_eq_self hx, h2, List.append_nil]

/-- C7: adding a fresh column `x` and then dropping `x` leaves the table's
column list identical to what it was before the add, and every other
column's data byte-identical: the table read back afterwards is exactly
the original table. -/
theorem add_then_delete_column_roundtrip (db : Database) (tn x : String)
    (t : Table)
    (h1 : getTable db tn = some t)
    (h2 : getTable db (tn ++ "_temp") = none)
    (hx : x ∉ t.cols.map Prod.fst)
    (hnd : (t.cols.map Prod.fst).Nodup)
    (hlen : ∀ r ∈ t.rows, r.length = t.cols.length) :
    getTable (DatabaseViewer.delete_column
      (DatabaseViewer.add_column db tn x).db tn x).db tn = some t := by
  have hne : tn ≠ tn ++ "_temp" := by
    intro he
    rw [he] at h1
    rw [h1] at h2
    exact Option.noConfusion h2
  have hstep : addColumn db tn x = (true, setTable db tn
      ⟨t.cols ++ [(x, "TEXT")],
       t.rows.map (fun r => r ++ [defaultValue])⟩) := by
    unfold addColumn
    rw [h1]
    dsimp only
    rw [if_neg hx]
  have ha : (DatabaseViewer.add_column db tn x).db = setTable db tn
      ⟨t.cols ++ [(x, "TEXT")],
       t.rows.map (fun r => r ++ [defaultValue])⟩ := by
    unfold DatabaseViewer.add_column
    rw [hstep]
    rfl
  rw [ha]
  have g1 : getTable (setTable db tn
      (⟨t.cols ++ [(x, "TEXT")],
        t.rows.map (fun r => r ++ [defaultValue])⟩ : Table)) tn =
      some ⟨t.cols ++ [(x, "TEXT")],
        t.rows.map (fun r => r ++ [defaultValue])⟩ :=
    getTable_setTable_self _ h1
  have g2 : getTable (setTable db tn
      (⟨t.cols ++ [(x, "TEXT")],
        t.rows.map (fun r => r ++ [defaultValue])⟩ : Table))
      (tn ++ "_temp") = none := by
    rw [getTable_setTable_ne _ (Ne.symm hne)]
    exact h2
  have h := getTable_dropColumnRebuild _ tn x _ g1 g2
  dsimp only at h
  rw [reducedCols_append_fresh "TEXT" hx] at h
  have hrows : (t.rows.map (fun r => r ++ [defaultValue])).map
      (projectRow (t.cols ++ [(x, "TEXT")]) (t.cols.map Prod.fst))
      = t.rows := by
    rw [List.map_map]
    have he : (t.rows.map
        ((projectRow (t.cols ++ [(x, "TEXT")]) (t.cols.map Prod.fst)) ∘
          (fun r => r ++ [defaultValue]))) = t.rows.map id :=
      List.map_congr_left (fun r hr =>
        projectRow_append_fresh x defaultValue "TEXT" hnd (hlen r hr))
    rw [he, List.map_id]
  rw [hrows] at h
  exact h

/-- Witness for C7 at the concrete `people` table with the fresh column
`nick`. -/
theorem add_then_delete_column_roundtrip_witness :
    getTable (DatabaseViewer.delete_column
      (DatabaseViewer.add_column dbPeople "people" "nick").db
      "people" "nick").db "people" = some peopleTable :=
  add_then_delete_column_roundtrip dbPeople "people" "nick" peopleTable
    (by decide) (by decide) (by decide) (by decide) (by decide)

/-- C6: dropping an existing column and then running the drop command's
inverse re-adds a column with the same name, with the same number of rows,
but with every value in that column reset to the empty default rather than
the previously stored values (the documented lossy undo). -/
theorem drop_column_undo_lossy (db : Database) (tn c : String) (t : Table)
    (h1 : getTable db tn = some t)
    (h2 : getTable db (tn ++ "_temp") = none)
    (h3 : c ∈ t.cols.map Prod.fst) :
    ∃ t2, getTable (DeleteColumnCommand.undo
        (DeleteColumnCommand.redo db tn c) tn c) tn = some t2 ∧
      c ∈ t2.cols.map Prod.fst ∧
      t2.rows.length = t.rows.length ∧
      columnValues t2 c = List.replicate t.rows.length defaultValue := by
  have h : getTable (DeleteColumnCommand.redo db tn c) tn =
      some ⟨reducedCols t.cols c,
        t.rows.map (projectRow t.cols
          ((reducedCols t.cols c).map Prod.fst))⟩ :=
    getTable_dropColumnRebuild db tn c t h1 h2
  have hc' : c ∉ (reducedCols t.cols c).map Prod.fst :=
    not_mem_reducedCols_names t.cols c
  have hstep : addColumn (DeleteColumnCommand.redo db tn c) tn c =
      (true, setTable (DeleteColumnCommand.redo db tn c) tn
        ⟨reducedCols t.cols c ++ [(c, "TEXT")],
         (t.rows.map (projectRow t.cols
           ((reducedCols t.cols c).map Prod.fst))).map
             (fun r => r ++ [defaultValue])⟩) := by
    unfold addColumn
    rw [h]
    dsimp only
    rw [if_neg hc']
  have hu : DeleteColumnCommand.undo (DeleteColumnCommand.redo db tn c) tn c
      = setTable (DeleteColumnCommand.redo db tn c) tn
        ⟨reducedCols t.cols c ++ [(c, "TEXT")],
         (t.rows.map (projectRow t.cols
           ((reducedCols t.cols c).map Prod.fst))).map
             (fun r => r ++ [defaultValue])⟩ := by
    unfold DeleteColumnCommand.undo
    rw [hstep]
  refine ⟨_, by rw [hu]; exact getTable_setTable_self _ h, ?_, ?_, ?_⟩
  · dsimp only
    rw [List.map_append]
    simp
  · dsimp only
    rw [List.length_map, List.length_map]
  · unfold columnValues
    dsimp only
    rw [List.map_map, List.map_map]
    refine Eq.trans (List.map_congr_left ?_)
      (List.map_const t.rows defaultValue)
    intro r _
    show lookupVal
      (((reducedCols t.cols c ++ [(c, "TEXT")]).map Prod.fst).zip
        (projectRow t.cols ((reducedCols t.cols c).map Prod.fst) r
          ++ [defaultValue])) c = defaultValue
    rw [List.map_append]
    rw [List.zip_append (by simp [projectRow])]
    rw [lookupVal_append_keys_ne _ (zip_keys_ne hc')]
    simp [lookupVal]

/-- Witness for C6 at the concrete `people` table, dropping and then
un-dropping `name`. -/
theorem drop_column_undo_lossy_witness :
    ∃ t2, getTable (DeleteColumnCommand.undo
        (DeleteColumnCommand.redo dbPeople "people" "name")
        "people" "name") "people" = some t2 ∧
      "name" ∈ t2.cols.map Prod.fst ∧
      t2.rows.length = peopleTable.rows.length ∧
      columnValues t2 "name" =
        List.replicate peopleTable.rows.length defaultValue :=
  drop_column_undo_lossy dbPeople "people" "name" peopleTable
    (by decide) (by decide) (by decide)

/-- The failing input for the cell-edit undo claim: a single displayed
cell holding `"Bob"`. -/
def qGridBob : QGrid := [[some "Bob"]]

/-- The grid after the user edits that cell to `"Ann"`: the model writes
the value through immediately (edit strategy `OnFieldChange`) and then
emits `dataChanged`. -/
def qGridEdited : QGrid := setQCell qGridBob 0 0 (some "Ann")

/-- The update command the handler builds for that edit: an invalid
`none` as the old value — not the pre-edit `"Bob"` — and `"Ann"` as the
new value. -/
def bobEditCommand : UpdateCommand :=
  { row := 0, col := 0, old_value := none, new_value := some "Ann" }

/-- C2 (code bug, evaluated at the failing input): the claim — and the
spec's own Command invariant — say the pushed command's reverse action
restores the value the cell held immediately before the edit. The code
cannot do that: `on_data_changed` captures `old_value` from
`model.data(index, UserRole)`, which is the invalid variant `none`, never
the pre-edit value. At the failing input (cell (0,0) holds `"Bob"`,
edited to `"Ann"`): the handler does push a command (its two values
differ), that command's old value is `none`, so its reverse action writes
NULL into the cell instead of restoring the prior `"Bob"`; only its
forward action restores the edited value as claimed. -/
theorem cell_edit_undo_writes_null :
    DatabaseViewer.on_data_changed qGridEdited 0 0 = some bobEditCommand ∧
    getQCell qGridBob 0 0 = some "Bob" ∧
    getQCell (bobEditCommand.undo qGridEdited) 0 0 = none ∧
    getQCell (bobEditCommand.redo (bobEditCommand.undo qGridEdited)) 0 0
      = some "Ann" := by
  decide

/-- C8: the command log is a classic linear undo stack — pushing discards
everything right of the cursor so that a redo issued immediately after a
push is a no-op, undo is a no-op when the cursor is at the start, and redo
is a no-op when the cursor is at the end. -/
theorem undo_stack_linear (st : AppState) (c : Cmd) :
    stackRedo (stackPush st c) = stackPush st c ∧
    (st.stack.index = 0 → stackUndo st = st) ∧
    (st.stack.index = st.stack.cmds.length → stackRedo st = st) := by
  refine ⟨?_, ?_, ?_⟩
  · unfold stackPush stackRedo
    dsimp only
    rw [dif_neg (lt_irrefl _)]
  · intro h
    unfold stackUndo
    rw [if_pos h]
  · intro h
    unfold stackRedo
    rw [dif_neg (by rw [h]; exact lt_irrefl _)]

/-- Witness for C8 at a concrete state whose cursor is both at the start
and at the end of the (empty) command list. -/
theorem undo_stack_linear_witness :
    stackRedo (stackPush emptyApp (Cmd.update 0 1 "" "Ann")) =
      stackPush emptyApp (Cmd.update 0 1 "" "Ann") ∧
    stackUndo emptyApp = emptyApp ∧
    stackRedo emptyApp = emptyApp := by
  obtain ⟨a, b, c⟩ := undo_stack_linear emptyApp (Cmd.update 0 1 "" "Ann")
  exact ⟨a, b rfl, c rfl⟩

/-- C9: exporting a table with N rows writes exactly N+1 records — the
header record holding the column names in display order followed by the N
data rows in order. -/
theorem export_to_csv_shape (t : Table)
    (hlen : ∀ r ∈ t.rows, r.length = t.cols.length) :
    DatabaseViewer.export_to_csv t = (t.cols.map Prod.fst) :: t.rows ∧
    (DatabaseViewer.export_to_csv t).length = t.rows.length + 1 := by
  have h1 : t.rows.map (fun r => (List.range t.cols.length).map
      (fun i => r.getD i defaultValue)) = t.rows := by
    have he : t.rows.map (fun r => (List.range t.cols.length).map
        (fun i => r.getD i defaultValue)) = t.rows.map id :=
      List.map_congr_left (fun r hr => by
        rw [← hlen r hr]
        exact range_getD_eq r)
    rw [he, List.map_id]
  constructor
  · unfold DatabaseViewer.export_to_csv
    rw [h1]
  · unfold DatabaseViewer.export_to_csv
    simp

/-- Witness for C9 at the concrete `people` table (2 rows, 3 columns). -/
theorem export_to_csv_shape_witness :
    DatabaseViewer.export_to_csv peopleTable =
      (peopleTable.cols.map Prod.fst) :: peopleTable.rows ∧
    (DatabaseViewer.export_to_csv peopleTable).length =
      peopleTable.rows.length + 1 :=
  export_to_csv_shape peopleTable (by decide)

/-- C4 counterexample: a failing statement (nonempty after stripping, so
it is attempted) leaves the history untouched — no timestamped entry is
appended — refuting the claim that every attempted statement is recorded
whether it succeeds or fails. -/
theorem execute_query_failure_not_recorded_cex :
    pyStrip ['B', 'A', 'D'] ≠ [] ∧
    (DatabaseViewer.execute_query [] ['t', 's'] ['B', 'A', 'D']
      false).history = [] :=
  ⟨by decide, by decide⟩

/-- C4 (amended): a timestamped, truncated history entry is appended
exactly when the attempted statement succeeds; failed statements are not
recorded. -/
theorem execute_query_history_appends_iff_success
    (history : List (List Char)) (now raw : List Char) (engineOk : Bool)
    (hq : pyStrip raw ≠ []) :
    (DatabaseViewer.execute_query history now raw engineOk).history =
      if engineOk then history ++ [historyLine now (pyStrip raw)]
      else history := by
  unfold DatabaseViewer.execute_query
  dsimp only
  rw [if_neg hq]
  cases engineOk <;> rfl

/-- Witness for the amended C4 at a concrete successful statement. -/
theorem execute_query_history_appends_iff_success_witness :
    (DatabaseViewer.execute_query [] ['t', 's'] ['S', 'E', 'L']
      true).history =
      if true then
        [] ++ [historyLine ['t', 's'] (pyStrip ['S', 'E', 'L'])]
      else [] :=
  execute_query_history_appends_iff_success [] ['t', 's'] ['S', 'E', 'L']
    true (by decide)

/-- C10: recalling a history entry restores exactly the executed query
text precisely when that text is at most 50 characters long and does not
end with a dot: the stored entry keeps only the first 50 characters plus
`...`, and the recall path strips every trailing dot, so longer queries
and queries ending in dots come back altered. -/
theorem history_recall_roundtrip (ts q : List Char)
    (hts : hasColonSpace ts = false) :
    DatabaseViewer.load_query_from_history (historyLine ts q) = q ↔
      q.length ≤ 50 ∧ q.getLast? ≠ some '.' := by
  unfold DatabaseViewer.load_query_from_history historyLine
  rw [afterColonSpace_boundary _ hts]
  rw [rstripDots_append_dots, rstripDots_append_dots]
  constructor
  · intro he
    constructor
    · have hl := length_rstripDots_le (q.take 50)
      rw [he, List.length_take] at hl
      exact le_trans hl inf_le_left
    · intro hl
      apply rstripDots_getLast_ne (q.take 50)
      rw [he]
      exact hl
  · rintro ⟨h50, hdot⟩
    rw [List.take_of_length_le h50]
    exact rstripDots_eq_self hdot

/-- Witness for C10: a short query without a trailing dot is restored
verbatim. -/
theorem history_recall_roundtrip_witness :
    DatabaseViewer.load_query_from_history
      (historyLine ['t', 's'] ['s', 'e', 'l']) = ['s', 'e', 'l'] :=
  (history_recall_roundtrip ['t', 's'] ['s', 'e', 'l']
    (by decide)).mpr (by decide)
